import Mathlib

/-!
# Verification of the par2 core of `qrpdf` (`src/qr_pdf/par2.py`)

Shallow embedding of the PAR2 packet parser / tar-optimizer.

Modelling conventions:
* Python `bytes` are `List Nat` (each entry a byte value; the source only ever
  produces values `< 256`, and none of the verified properties depend on that
  bound because `struct`-style packing copies string fields verbatim).
* Python slicing `data[a:b]` is `pySlice data a b = (data.take b).drop a`,
  which matches Python's clamping semantics for out-of-range indices.
* `struct.pack("<Ns", b)` pads with NULs / truncates to exactly `N` bytes,
  modelled by `packFixed`; `struct.pack("<Q", v)` is `le64` (little endian,
  modulo 2^64 — CPython raises for v ≥ 2^64, which never happens for the
  lengths arising here).
* `md5(...).digest()` is an external hash: all definitions are parameterised
  over an arbitrary `md5func : List Nat → List Nat` (the real MD5 always
  returns 16 bytes, which appears as a hypothesis where it matters).
* Exceptions are explicit: `Option` for `struct.error` at the header codec,
  and the `PyErr` sum for errors raised by the optimizer pipeline.
-/

namespace QrPdf

/-- Python slice `data[a:b]` (clamping, never failing). -/
def pySlice (data : List Nat) (a b : Nat) : List Nat := (data.take b).drop a

/-- Model of `struct.pack("<Ns", b)`: pad with NUL bytes / truncate to exactly `n`. -/
def packFixed (n : Nat) (b : List Nat) : List Nat :=
  b.take n ++ List.replicate (n - b.length) 0

/-- Model of `struct.pack("<Q", v)`: 8 little-endian bytes of `v` (mod 2^64). -/
def le64 (v : Nat) : List Nat :=
  [v % 256, v / 256 % 256, v / 256 ^ 2 % 256, v / 256 ^ 3 % 256,
   v / 256 ^ 4 % 256, v / 256 ^ 5 % 256, v / 256 ^ 6 % 256, v / 256 ^ 7 % 256]

/-- Little-endian read of a byte list (`struct.unpack("<Q", ...)`). -/
def readLE (l : List Nat) : Nat := l.foldr (fun b acc => b + 256 * acc) 0

/-- Model of `tarfile.BLOCKSIZE` -/
def TAR_BLOCK_SIZE : Nat := 512

/-- Model of `PACKET_HEADER_SIZE = 64` -/
def PACKET_HEADER_SIZE : Nat := 64

/-- Model of `PacketHeader._magic_expected = b'PAR2\x00PKT'` -/
def magic_expected : List Nat := [0x50, 0x41, 0x52, 0x32, 0x00, 0x50, 0x4B, 0x54]

/-- Model of `b'PAR 2.0\x00Main\x00\x00\x00\x00'` -/
def sigMain : List Nat :=
  [0x50, 0x41, 0x52, 0x20, 0x32, 0x2E, 0x30, 0x00, 0x4D, 0x61, 0x69, 0x6E, 0, 0, 0, 0]

/-- Model of `b'PAR 2.0\x00Creator\x00'` -/
def sigCreator : List Nat :=
  [0x50, 0x41, 0x52, 0x20, 0x32, 0x2E, 0x30, 0x00, 0x43, 0x72, 0x65, 0x61, 0x74, 0x6F, 0x72, 0x00]

/-- Model of `b'PAR 2.0\x00FileDesc'` -/
def sigFileDescription : List Nat :=
  [0x50, 0x41, 0x52, 0x20, 0x32, 0x2E, 0x30, 0x00, 0x46, 0x69, 0x6C, 0x65, 0x44, 0x65, 0x73, 0x63]

/-- Model of `b'PAR 2.0\x00IFSC\x00\x00\x00\x00'` -/
def sigFileVerification : List Nat :=
  [0x50, 0x41, 0x52, 0x20, 0x32, 0x2E, 0x30, 0x00, 0x49, 0x46, 0x53, 0x43, 0, 0, 0, 0]

/-- Model of `b'PAR 2.0\x00RecvSlic'` -/
def sigRecoveryBlock : List Nat :=
  [0x50, 0x41, 0x52, 0x20, 0x32, 0x2E, 0x30, 0x00, 0x52, 0x65, 0x63, 0x76, 0x53, 0x6C, 0x69, 0x63]

/-- Model of `PACKET_TYPES`: human-readable name → 16-byte signature. -/
def PACKET_TYPES : List (String × List Nat) :=
  [("Main", sigMain), ("Creator", sigCreator), ("FileDescription", sigFileDescription),
   ("FileVerification", sigFileVerification), ("RecoveryBlock", sigRecoveryBlock)]

/-- The header for every par2 packet (`PacketHeader`, a NamedTuple). -/
structure PacketHeader where
  magic : List Nat
  length : Nat
  hash : List Nat
  set_id : List Nat
  signature : List Nat
deriving DecidableEq, Repr

namespace PacketHeader

/-- Model of `PacketHeader.from_bytes` / `struct.unpack_from("<8sQ16s16s16s", data)`.
`none` models the `struct.error` raised when fewer than 64 bytes remain. -/
def from_bytes (data : List Nat) : Option PacketHeader :=
  if 64 ≤ data.length then
    some { magic := pySlice data 0 8,
           length := readLE (pySlice data 8 16),
           hash := pySlice data 16 32,
           set_id := pySlice data 32 48,
           signature := pySlice data 48 64 }
  else none

/-- Model of `PacketHeader.as_bytes` / `struct.pack("<8sQ16s16s16s", *self)`. -/
def as_bytes (h : PacketHeader) : List Nat :=
  packFixed 8 h.magic ++ le64 h.length ++ packFixed 16 h.hash ++
    packFixed 16 h.set_id ++ packFixed 16 h.signature

/-- Model of `PacketHeader.is_valid` -/
def is_valid (h : PacketHeader) : Bool :=
  decide (h.magic = magic_expected) && PACKET_TYPES.any (fun kv => decide (kv.2 = h.signature))

/-- Model of `PacketHeader.type` (`PACKET_LOOKUP.get(self.signature, "Unknown")`). -/
def type (h : PacketHeader) : String :=
  ((PACKET_TYPES.find? (fun kv => decide (kv.2 = h.signature))).map (fun kv => kv.1)).getD
    "Unknown"

end PacketHeader

/-- A Par2 Packet: header plus the payload bytes after the header. -/
structure Packet where
  header : PacketHeader
  data_after_header : List Nat
deriving DecidableEq, Repr

namespace Packet

/-- Model of `Packet.as_bytes` -/
def as_bytes (p : Packet) : List Nat := p.header.as_bytes ++ p.data_after_header

/-- Model of `Packet._generate_hash` (`md5(self.as_bytes()[32:]).digest()`). -/
def generate_hash (md5func : List Nat → List Nat) (p : Packet) : List Nat :=
  md5func (p.as_bytes.drop 32)

/-- Model of `Packet.__init__(packet_type, set_id, data)` (the non-`header` path):
builds the header with the computed length, then fills in the hash. -/
def mkNew (md5func : List Nat → List Nat) (packet_type : String) (set_id data : List Nat) :
    Packet :=
  let signature :=
    ((PACKET_TYPES.find? (fun kv => decide (kv.1 = packet_type))).map (fun kv => kv.2)).getD []
  let header0 : PacketHeader :=
    { magic := magic_expected, length := PACKET_HEADER_SIZE + data.length, hash := [],
      set_id := set_id, signature := signature }
  let p0 : Packet := { header := header0, data_after_header := data }
  { header := { header0 with hash := p0.generate_hash md5func }, data_after_header := data }

/-- Model of `Packet.from_bytes`: decode header, then slice payload as
`data[PACKET_HEADER_SIZE:header.length]`. `none` models `struct.error`. -/
def from_bytes (data : List Nat) : Option Packet :=
  (PacketHeader.from_bytes data).map fun h =>
    { header := h, data_after_header := pySlice data PACKET_HEADER_SIZE h.length }

/-- Model of `Packet.is_valid` -/
def is_valid (md5func : List Nat → List Nat) (p : Packet) : Bool :=
  p.header.is_valid &&
    decide (p.data_after_header.length + PACKET_HEADER_SIZE = p.header.length) &&
    decide (p.generate_hash md5func = p.header.hash)

/-- Model of `Packet.__len__` (`self.header.length` — the *declared* size). -/
def len (p : Packet) : Nat := p.header.length

/-- Model of `Packet.__eq__`: compares headers only ("This mostly just compares headers"). -/
def pyEq (p q : Packet) : Bool := decide (p.header = q.header)

end Packet

/-- Model of `bytes.rstrip(b'\0')`: drop trailing NUL bytes. -/
def rstripZero (l : List Nat) : List Nat :=
  (l.reverse.dropWhile (fun b => decide (b = 0))).reverse

namespace CreatorPacket

/-- Model of `CreatorPacket.__init__(client, set_id)`.  `clientBytes` stands for
`client.encode()` — the UTF-8 bytes of the client string (Python's
`str.encode`/`bytes.decode` pair is a bijection onto valid UTF-8 byte
strings, so the model works at the byte level). -/
def mkNew (md5func : List Nat → List Nat) (clientBytes set_id : List Nat) : Packet :=
  let padding := 4 - clientBytes.length % 4
  Packet.mkNew md5func "Creator" set_id (clientBytes ++ List.replicate padding 0)

/-- Model of `CreatorPacket.client` (`bytes(self._data_after_header).rstrip(b'\0').decode()`),
at the byte level (before the final UTF-8 `decode`). -/
def client (p : Packet) : List Nat := rstripZero p.data_after_header

end CreatorPacket

/-- Model of `re.finditer` offsets of a fixed literal pattern: non-overlapping matches,
left to right, resuming after each match.  Structured with explicit fuel so
the kernel can evaluate it; `finditer` supplies enough fuel. -/
def finditerAux (pat data : List Nat) : Nat → Nat → List Nat
  | _, 0 => []
  | i, fuel + 1 =>
    if i + pat.length ≤ data.length then
      if pat.isPrefixOf (data.drop i) then i :: finditerAux pat data (i + pat.length) fuel
      else finditerAux pat data (i + 1) fuel
    else []

/-- All match start offsets of `pat` in `data` (as `re.finditer`). -/
def finditer (pat data : List Nat) : List Nat := finditerAux pat data 0 (data.length + 1)

/-- The type filter of `get_packets`:
`packet_type is None or packet.header.type == packet_type`. -/
def matchesFilter (packet_type : Option String) (p : Packet) : Bool :=
  match packet_type with
  | none => true
  | some t => decide (p.header.type = t)

/-- The loop body of `get_packets` over the match offsets.  The generator
yields packets until a `Packet.from_bytes` call raises `struct.error`
(fewer than 64 bytes after the match start): the second component records
whether the iteration ended in that exception. -/
def scanOffsets (data : List Nat) (packet_type : Option String) :
    List Nat → List Packet × Bool
  | [] => ([], false)
  | i :: rest =>
    match Packet.from_bytes (data.drop i) with
    | none => ([], true)
    | some p =>
      let (ps, e) := scanOffsets data packet_type rest
      (if matchesFilter packet_type p then p :: ps else ps, e)

/-- Model of `get_packets(data, packet_type)`: packets yielded (in offset order) and
whether the generator ends by raising `struct.error`. -/
def get_packets (data : List Nat) (packet_type : Option String) : List Packet × Bool :=
  scanOffsets data packet_type (finditer magic_expected data)

/-- Model of `get_packet_unique`: the function body is empty (docstring only),
so a call returns `None` for every input. -/
def get_packet_unique (data : List Nat) (packet_type : String) : Option Packet :=
  none

/-- Model of `_get_unused_block_size(used)` -/
def _get_unused_block_size (used : Nat) : Nat :=
  let u := used % TAR_BLOCK_SIZE
  if u = 0 then 0 else TAR_BLOCK_SIZE - u

/-- Errors raised by the optimizer pipeline.  The Python source raises
built-in exception classes; the constructors name the conditions the spec's
error taxonomy gives them:
* `structError` — `struct.error` escaping `PacketHeader.from_bytes`;
* `inconsistentRecoverySet which` — `ValueError("Found multiple (..) different
  <which> packets.  Recovery file is suspect.")`;
* `missingMainPacket` — `ValueError("Main packet not found!")`;
* `assertionError` — the whole-block `assert` in `optimize_for_tar`. -/
inductive PyErr where
  | structError
  | inconsistentRecoverySet (which : String)
  | missingMainPacket
  | assertionError
deriving DecidableEq, Repr

/-- The duplicate check `_get_optimized_main` performs on each of the Creator
and Main groups: more than one packet and all equal (header comparison via
`Packet.__eq__`) collapses to the first; more than one and not all equal is
the "Recovery file is suspect" `ValueError` (`none` here). -/
def consolidateGroup : List Packet → Option (List Packet)
  | [] => some []
  | p :: ps =>
    if (p :: ps).length > 1 then
      if (p :: ps).all (fun q => q.pyEq p) then some [p] else none
    else some (p :: ps)

/-- Model of `_get_optimized_main(data)`.  `defaultClient` stands for the bytes of
`"qr-pdf on {date}"` (the `datetime.now().date()` call is an external input
of the model). -/
def _get_optimized_main (md5func : List Nat → List Nat) (defaultClient : List Nat)
    (data : List Nat) : Except PyErr (List Nat × Option Packet) := do
  let (cs, ce) := get_packets data (some "Creator")
  if ce then throw .structError
  let (ms, me) := get_packets data (some "Main")
  if me then throw .structError
  let creator_packets ← match consolidateGroup cs with
    | some l => pure l
    | none => throw (.inconsistentRecoverySet "Creator")
  let main_packets ← match consolidateGroup ms with
    | some l => pure l
    | none => throw (.inconsistentRecoverySet "Main")
  match main_packets with
  | [] => throw .missingMainPacket
  | m :: _ =>
    let creator := match creator_packets with
      | [] => CreatorPacket.mkNew md5func defaultClient m.header.set_id
      | c :: _ => c
    let bin_bytes_remaining := _get_unused_block_size m.len
    if creator.len ≤ bin_bytes_remaining then
      pure (m.as_bytes ++ creator.as_bytes ++
        List.replicate (bin_bytes_remaining - creator.len) 0, none)
    else
      pure (m.as_bytes ++ List.replicate bin_bytes_remaining 0, some creator)

/-- The tail of `_get_optimized_main` after both duplicate checks passed:
given the consolidated Creator and Main groups, synthesize a Creator packet
if needed, then pack Main (and, if it fits, Creator) into whole blocks.
Factored out of `_get_optimized_main` for use in its unfolding lemmas. -/
def consolidatedOutput (md5func : List Nat → List Nat) (defaultClient : List Nat)
    (cl ml : List Packet) : Except PyErr (List Nat × Option Packet) :=
  match ml with
  | [] => Except.error .missingMainPacket
  | m :: _ =>
    let creator := match cl with
      | [] => CreatorPacket.mkNew md5func defaultClient m.header.set_id
      | c :: _ => c
    let bin_bytes_remaining := _get_unused_block_size m.len
    if creator.len ≤ bin_bytes_remaining then
      Except.ok (m.as_bytes ++ creator.as_bytes ++
        List.replicate (bin_bytes_remaining - creator.len) 0, none)
    else
      Except.ok (m.as_bytes ++ List.replicate bin_bytes_remaining 0, some creator)

/-- The inner `for i, packet in enumerate(file_packets)` pass of
`_get_optimized_file_data`: returns (packets moved into the bin, in order),
the remaining bin space, and the packets kept for later bins. -/
def fillBin (rem : Nat) : List Packet → List Packet × Nat × List Packet
  | [] => ([], rem, [])
  | p :: ps =>
    if p.len ≤ rem then
      let (chosen, rem', kept) := fillBin (rem - p.len) ps
      (p :: chosen, rem', kept)
    else
      let (chosen, rem', kept) := fillBin rem ps
      (chosen, rem', p :: kept)

/-- Stable insertion keeping descending `len` order (`insort` step of the
stable sort below). -/
def insertByLenDesc (p : Packet) : List Packet → List Packet
  | [] => [p]
  | q :: qs => if p.len ≤ q.len then q :: insertByLenDesc p qs else p :: q :: qs

/-- Model of `file_packets.sort(key=len, reverse=True)`: Python's sort is stable, so
its result is the unique stable descending-by-length ordering, computed here
by stable insertion. -/
def sortByLenDesc (l : List Packet) : List Packet :=
  l.foldl (fun acc p => insertByLenDesc p acc) []

/-- One bin of the `while` loop of `_get_optimized_file_data`:
the popped head packet, the packets the inner pass moved into the bin, and
the number of NUL padding bytes closing the bin. -/
structure Bin where
  head : Packet
  chosen : List Packet
  pad : Nat
deriving Repr

/-- The `while len(file_packets)` loop of `_get_optimized_file_data`, one
`Bin` per outer iteration.  Each iteration appends to `out` exactly
`head.as_bytes + (chosen bytes in order) + pad` NUL bytes (`renderBin`).
Fuel-structured (fuel ≥ list length always suffices: each iteration strictly
shrinks the worklist). -/
def packBinsAux : Nat → List Packet → List Bin
  | 0, _ => []
  | _, [] => []
  | fuel + 1, p :: ps =>
    let rem := _get_unused_block_size p.len
    if rem ≤ PACKET_HEADER_SIZE then
      -- Optimization. Nothing will fit, so close the bin
      { head := p, chosen := [], pad := rem } :: packBinsAux fuel ps
    else
      let (chosen, rem', kept) := fillBin rem ps
      { head := p, chosen := chosen, pad := rem' } :: packBinsAux fuel kept

def packBins (l : List Packet) : List Bin := packBinsAux l.length l

/-- The bytes one outer iteration appends to `out`. -/
def renderBin (b : Bin) : List Nat :=
  b.head.as_bytes ++ (b.chosen.map Packet.as_bytes).flatten ++ List.replicate b.pad 0

/-- The sort-and-pack core of `_get_optimized_file_data`, applied to the
deduplicated file packets. -/
def packFilePackets (l : List Packet) : List Nat :=
  ((packBins (sortByLenDesc l)).map renderBin).flatten

/-- Model of `set(...)` deduplication (`Packet.__hash__`/`__eq__` are header-based, so
`set` membership is header equality).  Python's set iteration order is
unspecified; it is determinized here as first-occurrence order — every
property proved below is invariant under permutation of this list. -/
def pyDedupAux : Nat → List Packet → List Packet
  | 0, _ => []
  | _, [] => []
  | fuel + 1, p :: ps => p :: pyDedupAux fuel (ps.filter (fun q => !q.pyEq p))

def pyDedup (l : List Packet) : List Packet := pyDedupAux l.length l

/-- Model of `_get_optimized_file_data(data)`. -/
def _get_optimized_file_data (data : List Nat) : Except PyErr (List Nat) := do
  let (fd, e1) := get_packets data (some "FileDescription")
  if e1 then throw .structError
  let (fv, e2) := get_packets data (some "FileVerification")
  if e2 then throw .structError
  pure (packFilePackets (pyDedup (fd ++ fv)))

/-- Model of `optimize_for_tar(in_file, out)`: returns the bytes written to `out`
(in write order, concatenated) and the exception terminating the run, if
any.  The recovery loop consumes the scanner generator lazily, so packets
yielded before a scanner exception are already written. -/
def optimize_for_tar (md5func : List Nat → List Nat) (defaultClient : List Nat)
    (data : List Nat) : List Nat × Option PyErr :=
  match _get_optimized_main md5func defaultClient data with
  | .error e => ([], some e)
  | .ok (main_data, _creator_packet) =>
    match _get_optimized_file_data data with
    | .error e => (main_data, some e)
    | .ok file_data =>
      if (main_data.length + file_data.length) % TAR_BLOCK_SIZE ≠ 0 then
        -- `assert int(header_block_size) == header_block_size`
        (main_data ++ file_data, some .assertionError)
      else
        let (recs, re) := get_packets data (some "RecoveryBlock")
        let recovery :=
          (recs.map (fun p =>
            p.as_bytes ++ List.replicate (_get_unused_block_size p.len) 0)).flatten
        if re then (main_data ++ file_data ++ recovery, some .structError)
        else (main_data ++ file_data ++ recovery ++ file_data ++ main_data, none)

/-- Boolean form of the packet length invariant (`len(payload) + 64 ==
header.length`, the size consistency part of `Packet.is_valid`): the packet's
declared length matches its serialized size. -/
def Packet.completeB (p : Packet) : Bool :=
  decide (p.header.length = PACKET_HEADER_SIZE + p.data_after_header.length)

/-! ### Concrete test data

Inputs used to evaluate the definitions at specific points.  Packets are laid
out directly as header bytes followed by payload bytes, exactly as they would
appear in a `.par2` file. -/

/-- A stand-in for the external MD5 (16 constant bytes). -/
def md5dummy : List Nat → List Nat := fun _ => List.replicate 16 0

def zeros16 : List Nat := List.replicate 16 0

def sid1 : List Nat := List.replicate 16 1

def sid2 : List Nat := List.replicate 16 2

/-- A complete 68-byte Creator packet (4 NUL payload bytes). -/
def creatorP1 : Packet := ⟨⟨magic_expected, 68, zeros16, sid1, sigCreator⟩, [0, 0, 0, 0]⟩

/-- A complete 68-byte Main packet. -/
def mainP1 : Packet := ⟨⟨magic_expected, 68, zeros16, sid1, sigMain⟩, [1, 1, 1, 1]⟩

/-- A complete 68-byte Creator packet (4 NUL payload bytes). -/
def creatorAbytes : List Nat :=
  PacketHeader.as_bytes ⟨magic_expected, 68, zeros16, sid1, sigCreator⟩ ++ [0, 0, 0, 0]

/-- A second Creator packet with a different header hash field. -/
def creatorBbytes : List Nat :=
  PacketHeader.as_bytes ⟨magic_expected, 68, List.replicate 16 3, sid1, sigCreator⟩ ++ [0, 0, 0, 0]

/-- Header of a complete 68-byte Main packet. -/
def mainHdr68 : List Nat := PacketHeader.as_bytes ⟨magic_expected, 68, zeros16, sid1, sigMain⟩

def m1bytes : List Nat := mainHdr68 ++ [1, 1, 1, 1]

/-- Same header as `m1bytes`, last payload byte differs. -/
def m2bytes : List Nat := mainHdr68 ++ [1, 1, 1, 2]

/-- A Main packet with a different header (different `set_id`). -/
def m3bytes : List Nat :=
  PacketHeader.as_bytes ⟨magic_expected, 68, zeros16, sid2, sigMain⟩ ++ [1, 1, 1, 1]

/-- Creator followed by two Main packets whose headers agree but whose
payloads differ in the last byte. -/
def bufPayloadMismatchMains : List Nat := creatorAbytes ++ m1bytes ++ m2bytes

/-- Creator followed by two byte-identical Main packets. -/
def bufDupMains : List Nat := creatorAbytes ++ m1bytes ++ m1bytes

/-- Creator followed by a Main packet whose header declares 128 bytes but
whose payload is missing from the buffer (a truncated Main packet). -/
def bufTruncMain : List Nat :=
  creatorAbytes ++ PacketHeader.as_bytes ⟨magic_expected, 128, zeros16, sid1, sigMain⟩

/-- Creator followed by two Main packets with different headers. -/
def bufTwoDistinctMains : List Nat := creatorAbytes ++ m1bytes ++ m3bytes

/-- Two Creator packets with different headers, then a Main packet. -/
def bufTwoDistinctCreators : List Nat := creatorAbytes ++ creatorBbytes ++ m1bytes

/-- Two Creator packets with different headers and no Main packet. -/
def bufCreatorsNoMain : List Nat := creatorAbytes ++ creatorBbytes

/-- A well-formed buffer: one Creator and one Main packet, both complete. -/
def bufGood : List Nat := creatorAbytes ++ m1bytes

/-- Only the 8 magic bytes: a match with fewer than 64 bytes remaining. -/
def bufMagicOnly : List Nat := magic_expected

/-- Only a Creator packet (no Main packet anywhere). -/
def bufCreatorOnly : List Nat := creatorAbytes

/-- A 64-byte buffer that is just a header declaring a 100-byte packet. -/
def bufDeclares100 : List Nat :=
  PacketHeader.as_bytes ⟨magic_expected, 100, zeros16, sid1, sigMain⟩

/-- A FileDescription packet whose header declares 512 bytes but whose
payload is empty (violates the length invariant). -/
def fdBad : Packet := ⟨⟨magic_expected, 512, zeros16, sid1, sigFileDescription⟩, []⟩

/-- A complete 68-byte FileDescription packet. -/
def fdGood : Packet := ⟨⟨magic_expected, 68, zeros16, sid1, sigFileDescription⟩, [1, 1, 1, 1]⟩

/-- A packet built from an unrecognized type tag and a 17-byte set id. -/
def oddPacket : Packet := Packet.mkNew md5dummy "Bogus" (List.replicate 17 5) [9]

end QrPdf

set_option maxRecDepth 10000

namespace QrPdf

/-! ### Codec lemmas -/

theorem packFixed_length (n : Nat) (b : List Nat) : (packFixed n b).length = n := by
  simp [packFixed]
  omega

theorem packFixed_of_length_eq {n : Nat} {b : List Nat} (h : b.length = n) :
    packFixed n b = b := by
  subst h
  simp [packFixed]

theorem le64_length (v : Nat) : (le64 v).length = 8 := rfl

theorem readLE_le64 (v : Nat) (h : v < 2 ^ 64) : readLE (le64 v) = v := by
  simp only [readLE, le64, List.foldr]
  omega

theorem PacketHeader.as_bytes_len64 (h : PacketHeader) : h.as_bytes.length = 64 := by
  simp [PacketHeader.as_bytes, packFixed_length, le64_length]

theorem Packet.as_bytes_len (p : Packet) :
    p.as_bytes.length = 64 + p.data_after_header.length := by
  simp [Packet.as_bytes, PacketHeader.as_bytes_len64]

/-- Slicing a concatenation at the exact boundaries of the middle part. -/
theorem pySlice_chunk (pre mid post : List Nat) :
    pySlice (pre ++ mid ++ post) pre.length (pre.length + mid.length) = mid := by
  unfold pySlice
  rw [List.append_assoc]
  rw [List.take_append_eq_append_take]
  rw [List.take_of_length_le (by omega)]
  have h2 : pre.length + mid.length - pre.length = mid.length := by omega
  rw [h2, List.take_append_of_le_length (Nat.le_refl _), List.take_length,
    List.drop_left]

theorem PacketHeader.from_bytes_as_bytes_append (h : PacketHeader) (extra : List Nat)
    (hm : h.magic.length = 8) (hh : h.hash.length = 16) (hs : h.set_id.length = 16)
    (hg : h.signature.length = 16) (hl : h.length < 2 ^ 64) :
    PacketHeader.from_bytes (h.as_bytes ++ extra) = some h := by
  have hA := packFixed_of_length_eq hm
  have hC := packFixed_of_length_eq hh
  have hD := packFixed_of_length_eq hs
  have hE := packFixed_of_length_eq hg
  have hlen : (h.as_bytes ++ extra).length = 64 + extra.length := by
    simp [PacketHeader.as_bytes_len64 h]
  have hbytes : h.as_bytes ++ extra =
      h.magic ++ le64 h.length ++ h.hash ++ h.set_id ++ h.signature ++ extra := by
    simp [PacketHeader.as_bytes, hA, hC, hD, hE]
  have hmagic : pySlice (h.as_bytes ++ extra) 0 8 = h.magic := by
    rw [hbytes]
    have := pySlice_chunk [] h.magic
      (le64 h.length ++ h.hash ++ h.set_id ++ h.signature ++ extra)
    simpa [hm, List.append_assoc] using this
  have hlenf : pySlice (h.as_bytes ++ extra) 8 16 = le64 h.length := by
    rw [hbytes]
    have := pySlice_chunk h.magic (le64 h.length)
      (h.hash ++ h.set_id ++ h.signature ++ extra)
    simpa [hm, le64_length, List.append_assoc] using this
  have hhashf : pySlice (h.as_bytes ++ extra) 16 32 = h.hash := by
    rw [hbytes]
    have := pySlice_chunk (h.magic ++ le64 h.length) h.hash
      (h.set_id ++ h.signature ++ extra)
    simpa [hm, hh, le64_length, List.append_assoc] using this
  have hsidf : pySlice (h.as_bytes ++ extra) 32 48 = h.set_id := by
    rw [hbytes]
    have := pySlice_chunk (h.magic ++ le64 h.length ++ h.hash) h.set_id
      (h.signature ++ extra)
    simpa [hm, hh, hs, le64_length, List.append_assoc] using this
  have hsigf : pySlice (h.as_bytes ++ extra) 48 64 = h.signature := by
    rw [hbytes]
    have := pySlice_chunk (h.magic ++ le64 h.length ++ h.hash ++ h.set_id) h.signature extra
    simpa [hm, hh, hs, hg, le64_length, List.append_assoc] using this
  unfold PacketHeader.from_bytes
  rw [if_pos (by omega)]
  rw [hmagic, hlenf, hhashf, hsidf, hsigf, readLE_le64 _ hl]

/-! ### Claim C7: header round-trip -/

/-- C7: for every well-formed packet header (fields of their declared fixed
sizes — 8-byte magic, 16-byte hash, set id and signature, length below 2^64),
encoding to the 64-byte layout and decoding yields the identical header. -/
theorem C7_header_roundtrip (h : PacketHeader) (hm : h.magic.length = 8)
    (hh : h.hash.length = 16) (hs : h.set_id.length = 16) (hg : h.signature.length = 16)
    (hl : h.length < 2 ^ 64) :
    PacketHeader.from_bytes h.as_bytes = some h := by
  simpa using PacketHeader.from_bytes_as_bytes_append h [] hm hh hs hg hl

theorem C7_header_roundtrip_witness :
    PacketHeader.from_bytes
        (PacketHeader.as_bytes ⟨magic_expected, 68, zeros16, sid1, sigMain⟩) =
      some ⟨magic_expected, 68, zeros16, sid1, sigMain⟩ :=
  C7_header_roundtrip ⟨magic_expected, 68, zeros16, sid1, sigMain⟩ (by decide) (by decide)
    (by decide) (by decide) (by decide)

/-! ### Claim C9: the empty-bodied `get_packet_unique` -/

/-- C9: `get_packet_unique` has an empty function body, so for every input
buffer and packet type it returns `None`, never yields a packet and never
raises. -/
theorem C9_get_packet_unique_none (data : List Nat) (packet_type : String) :
    get_packet_unique data packet_type = none := rfl

/-! ### Claim C5: decoding a packet whose declared length exceeds the buffer -/

/-- C5 as stated is false: this 64-byte buffer declares a 100-byte packet,
yet `Packet.from_bytes` succeeds and returns a packet with a short (empty)
payload instead of failing. -/
theorem C5_counterexample :
    (Packet.from_bytes bufDeclares100).map
      (fun p => (p.header.length, p.data_after_header.length)) = some (100, 0) := by decide

/-- C5 (amended): when the buffer holds a decodable header whose declared
length exceeds the bytes available, `Packet.from_bytes` does not fail; it
returns a packet whose payload is exactly the remaining bytes (so shorter
than declared), and that packet fails `is_valid` for every hash function. -/
theorem C5_short_payload (md5func : List Nat → List Nat) (data : List Nat) (h : PacketHeader)
    (hdr : PacketHeader.from_bytes data = some h) (hlen : data.length < h.length) :
    Packet.from_bytes data = some ⟨h, data.drop PACKET_HEADER_SIZE⟩
    ∧ (data.drop PACKET_HEADER_SIZE).length + PACKET_HEADER_SIZE = data.length
    ∧ Packet.is_valid md5func ⟨h, data.drop PACKET_HEADER_SIZE⟩ = false := by
  have h64 : 64 ≤ data.length := by
    by_contra hc
    simp [PacketHeader.from_bytes, hc] at hdr
  have hslice : pySlice data PACKET_HEADER_SIZE h.length = data.drop 64 := by
    unfold pySlice
    rw [List.take_of_length_le (Nat.le_of_lt hlen)]
    rfl
  refine ⟨?_, ?_, ?_⟩
  · simp [Packet.from_bytes, hdr, hslice]
    rfl
  · simp only [List.length_drop, PACKET_HEADER_SIZE]
    omega
  · simp only [Packet.is_valid, PACKET_HEADER_SIZE, Bool.and_eq_false_iff]
    simp only [List.length_drop, decide_eq_false_iff_not]
    left
    right
    omega

theorem C5_short_payload_witness :
    Packet.from_bytes bufDeclares100 =
        some ⟨⟨magic_expected, 100, zeros16, sid1, sigMain⟩,
          bufDeclares100.drop PACKET_HEADER_SIZE⟩
    ∧ (bufDeclares100.drop PACKET_HEADER_SIZE).length + PACKET_HEADER_SIZE =
        bufDeclares100.length
    ∧ Packet.is_valid md5dummy
        ⟨⟨magic_expected, 100, zeros16, sid1, sigMain⟩,
          bufDeclares100.drop PACKET_HEADER_SIZE⟩ = false :=
  C5_short_payload md5dummy bufDeclares100 ⟨magic_expected, 100, zeros16, sid1, sigMain⟩
    (by decide) (by decide)

/-! ### Claim C10: CreatorPacket payload encoding -/

theorem dropWhile_zero_replicate_append (k : Nat) (l : List Nat) :
    (List.replicate k 0 ++ l).dropWhile (fun b => decide (b = 0)) =
      l.dropWhile (fun b => decide (b = 0)) := by
  induction k with
  | zero => rfl
  | succ n ih =>
    rw [List.replicate_succ, List.cons_append, List.dropWhile_cons_of_pos (by decide)]
    exact ih

theorem rstripZero_append_replicate (l : List Nat) (k : Nat) (h : 0 ∉ l) :
    rstripZero (l ++ List.replicate k 0) = l := by
  unfold rstripZero
  rw [List.reverse_append, List.reverse_replicate, dropWhile_zero_replicate_append]
  have hself : (l.reverse).dropWhile (fun b => decide (b = 0)) = l.reverse := by
    cases hr : l.reverse with
    | nil => rfl
    | cons a t =>
      have ha : a ∈ l := by
        rw [← List.mem_reverse, hr]
        exact List.mem_cons_self a t
      have hna : ¬(a = 0) := fun e => h (e ▸ ha)
      rw [List.dropWhile_cons_of_neg (by simpa using hna)]
  rw [hself, List.reverse_reverse]

/-- C10: for a client whose UTF-8 byte encoding contains no NUL byte,
constructing a CreatorPacket and reading back the `client` property returns
the original bytes; the payload appends between 1 and 4 NUL padding bytes
(exactly 4 when the encoded length is already a multiple of 4), so the
payload length is always a multiple of 4. -/
theorem C10_creator_client_roundtrip (md5func : List Nat → List Nat)
    (clientBytes set_id : List Nat) (h : 0 ∉ clientBytes) :
    CreatorPacket.client (CreatorPacket.mkNew md5func clientBytes set_id) = clientBytes
    ∧ (CreatorPacket.mkNew md5func clientBytes set_id).data_after_header.length =
        clientBytes.length + (4 - clientBytes.length % 4)
    ∧ 1 ≤ 4 - clientBytes.length % 4
    ∧ 4 - clientBytes.length % 4 ≤ 4
    ∧ (clientBytes.length % 4 = 0 → 4 - clientBytes.length % 4 = 4)
    ∧ (CreatorPacket.mkNew md5func clientBytes set_id).data_after_header.length % 4 = 0 := by
  have hdata : (CreatorPacket.mkNew md5func clientBytes set_id).data_after_header =
      clientBytes ++ List.replicate (4 - clientBytes.length % 4) 0 := rfl
  refine ⟨?_, ?_, ?_, ?_, ?_, ?_⟩
  · unfold CreatorPacket.client
    rw [hdata]
    exact rstripZero_append_replicate _ _ h
  · simp [hdata]
  · omega
  · omega
  · omega
  · simp only [hdata, List.length_append, List.length_replicate]
    omega

theorem Packet.as_bytes_drop_32 (p : Packet) :
    p.as_bytes.drop 32 =
      packFixed 16 p.header.set_id ++ packFixed 16 p.header.signature ++
        p.data_after_header := by
  have hsplit : p.as_bytes =
      (packFixed 8 p.header.magic ++ le64 p.header.length ++ packFixed 16 p.header.hash) ++
        (packFixed 16 p.header.set_id ++ packFixed 16 p.header.signature ++
          p.data_after_header) := by
    simp [Packet.as_bytes, PacketHeader.as_bytes, List.append_assoc]
  have hl : (packFixed 8 p.header.magic ++ le64 p.header.length ++
      packFixed 16 p.header.hash).length = 32 := by
    simp [packFixed_length, le64_length]
  rw [hsplit, ← hl, List.drop_left]

theorem PACKET_TYPES_sig_length : ∀ kv ∈ PACKET_TYPES, kv.2.length = 16 := by decide

/-- Payload slice of a serialized packet: the declared length computed by the
constructor cuts the payload back out exactly. -/
theorem pySlice_payload (hb pl : List Nat) (h64 : hb.length = 64) :
    pySlice (hb ++ pl) PACKET_HEADER_SIZE (PACKET_HEADER_SIZE + pl.length) = pl := by
  have := pySlice_chunk hb pl []
  rw [List.append_nil] at this
  rw [h64] at this
  exact this

theorem C10_creator_client_roundtrip_witness :
    CreatorPacket.client (CreatorPacket.mkNew md5dummy [97, 98] sid1) = [97, 98]
    ∧ (CreatorPacket.mkNew md5dummy [97, 98] sid1).data_after_header.length =
        [97, 98].length + (4 - [97, 98].length % 4)
    ∧ 1 ≤ 4 - [97, 98].length % 4
    ∧ 4 - [97, 98].length % 4 ≤ 4
    ∧ ([97, 98].length % 4 = 0 → 4 - [97, 98].length % 4 = 4)
    ∧ (CreatorPacket.mkNew md5dummy [97, 98] sid1).data_after_header.length % 4 = 0 :=
  C10_creator_client_roundtrip md5dummy [97, 98] sid1 (by decide)

/-! ### Claim C6: packet round-trip -/

/-- C6 as stated is false: a packet constructed from an unrecognized type tag
and a 17-byte set id (both allowed by "any type tag, set_id, and payload")
serializes, but decoding the serialization yields a packet that is not equal
to the original (the set id was truncated to 16 bytes by the header codec)
and fails `is_valid` (the signature is empty, hence unrecognized). -/
theorem C6_counterexample :
    (Packet.from_bytes oddPacket.as_bytes).map (fun q => q.pyEq oddPacket) = some false
    ∧ (Packet.from_bytes oddPacket.as_bytes).map (Packet.is_valid md5dummy) = some false := by
  constructor
  · decide
  · decide

/-- C6 (amended): for every packet constructed from a recognized type tag, a
16-byte set id and an arbitrary payload (with the total length below 2^64,
and the hash function returning 16 bytes as MD5 does), decoding the
serialization yields a packet equal to the original — in fact identical —
and that decoded packet satisfies `is_valid`. -/
theorem C6_packet_roundtrip (md5func : List Nat → List Nat)
    (hmd5 : ∀ l, (md5func l).length = 16) (ptype : String) (set_id payload : List Nat)
    (htype : (PACKET_TYPES.find? (fun kv => decide (kv.1 = ptype))).isSome = true)
    (hsid : set_id.length = 16)
    (hlen : PACKET_HEADER_SIZE + payload.length < 2 ^ 64) :
    ∃ q, Packet.from_bytes (Packet.mkNew md5func ptype set_id payload).as_bytes = some q
      ∧ q.pyEq (Packet.mkNew md5func ptype set_id payload) = true
      ∧ q.is_valid md5func = true := by
  obtain ⟨kv, hkv⟩ := Option.isSome_iff_exists.mp htype
  have hkvmem : kv ∈ PACKET_TYPES := List.mem_of_find?_eq_some hkv
  set p := Packet.mkNew md5func ptype set_id payload with hp
  have hsig : p.header.signature = kv.2 := by
    simp [hp, Packet.mkNew, hkv]
  have hdata : p.data_after_header = payload := rfl
  have hmagic : p.header.magic = magic_expected := rfl
  have hplen : p.header.length = PACKET_HEADER_SIZE + payload.length := rfl
  have hhash : p.header.hash.length = 16 := by
    have : p.header.hash =
        md5func ((⟨{ p.header with hash := [] }, payload⟩ : Packet).as_bytes.drop 32) := rfl
    rw [this]
    exact hmd5 _
  have hsid' : p.header.set_id = set_id := rfl
  have hdr : PacketHeader.from_bytes (p.header.as_bytes ++ payload) = some p.header := by
    apply PacketHeader.from_bytes_as_bytes_append
    · rw [hmagic]; rfl
    · exact hhash
    · rw [hsid']; exact hsid
    · rw [hsig]; exact PACKET_TYPES_sig_length kv hkvmem
    · rw [hplen]; exact hlen
  have hdecode : Packet.from_bytes p.as_bytes = some p := by
    unfold Packet.from_bytes
    have : p.as_bytes = p.header.as_bytes ++ payload := by
      rw [Packet.as_bytes, hdata]
    rw [this, hdr]
    rw [show ∀ (f : PacketHeader → Packet) (x : PacketHeader),
      Option.map f (some x) = some (f x) from fun _ _ => rfl]
    congr 1
    have hsl := pySlice_payload p.header.as_bytes payload (PacketHeader.as_bytes_len64 _)
    rw [← hplen] at hsl
    rw [hsl, ← hdata]
  refine ⟨p, hdecode, ?_, ?_⟩
  · simp [Packet.pyEq]
  · unfold Packet.is_valid
    have h1 : p.header.is_valid = true := by
      unfold PacketHeader.is_valid
      rw [hmagic, hsig, Bool.and_eq_true]
      exact ⟨by simp, List.any_eq_true.mpr ⟨kv, hkvmem, by simp⟩⟩
    have h2 : p.data_after_header.length + PACKET_HEADER_SIZE = p.header.length := by
      rw [hdata, hplen]
      omega
    have h3 : p.generate_hash md5func = p.header.hash := by
      have hv : p.header.hash =
          md5func ((⟨{ p.header with hash := [] }, payload⟩ : Packet).as_bytes.drop 32) := rfl
      rw [hv]
      unfold Packet.generate_hash
      rw [Packet.as_bytes_drop_32, Packet.as_bytes_drop_32]
      rw [hdata]
    simp [h1, h2, h3]

theorem C6_packet_roundtrip_witness :
    ∃ q, Packet.from_bytes (Packet.mkNew md5dummy "Main" sid1 [7]).as_bytes = some q
      ∧ q.pyEq (Packet.mkNew md5dummy "Main" sid1 [7]) = true
      ∧ q.is_valid md5dummy = true :=
  C6_packet_roundtrip md5dummy (fun _ => rfl) "Main" sid1 [7] (by decide) (by decide)
    (by decide)

/-! ### Scanner lemmas and claim C4 -/

theorem Packet.from_bytes_none_iff (data : List Nat) :
    Packet.from_bytes data = none ↔ data.length < 64 := by
  by_cases h : 64 ≤ data.length <;>
    simp [Packet.from_bytes, PacketHeader.from_bytes, h] <;> omega

theorem scanOffsets_cons (data : List Nat) (pt : Option String) (i : Nat) (rest : List Nat) :
    scanOffsets data pt (i :: rest) =
      match Packet.from_bytes (data.drop i) with
      | none => ([], true)
      | some p =>
        (if matchesFilter pt p then p :: (scanOffsets data pt rest).1
         else (scanOffsets data pt rest).1, (scanOffsets data pt rest).2) := rfl

theorem scanOffsets_snd_true_iff (data : List Nat) (pt : Option String) (offs : List Nat) :
    (scanOffsets data pt offs).2 = true ↔
      ∃ i ∈ offs, Packet.from_bytes (data.drop i) = none := by
  induction offs with
  | nil => simp [scanOffsets]
  | cons i rest ih =>
    rw [scanOffsets_cons]
    cases hfb : Packet.from_bytes (data.drop i) with
    | none =>
      simp only [List.mem_cons]
      exact ⟨fun _ => ⟨i, Or.inl rfl, hfb⟩, fun _ => trivial⟩
    | some p =>
      simp only [List.mem_cons]
      constructor
      · intro h
        obtain ⟨j, hj, hjn⟩ := ih.mp h
        exact ⟨j, Or.inr hj, hjn⟩
      · rintro ⟨j, hj | hj, hjn⟩
        · subst hj
          rw [hfb] at hjn
          exact absurd hjn (by simp)
        · exact ih.mpr ⟨j, hj, hjn⟩

theorem scanOffsets_mem (data : List Nat) (pt : Option String) (offs : List Nat)
    (p : Packet) (hp : p ∈ (scanOffsets data pt offs).1) :
    ∃ i ∈ offs, Packet.from_bytes (data.drop i) = some p := by
  induction offs with
  | nil => simp [scanOffsets] at hp
  | cons i rest ih =>
    rw [scanOffsets_cons] at hp
    revert hp
    cases hfb : Packet.from_bytes (data.drop i) with
    | none => intro hp; simp at hp
    | some q =>
      intro hp
      dsimp only at hp
      by_cases hmf : matchesFilter pt q
      · rw [if_pos hmf] at hp
        rcases List.mem_cons.mp hp with h | h
        · exact ⟨i, List.mem_cons_self _ _, h ▸ hfb⟩
        · obtain ⟨j, hj, hjf⟩ := ih h
          exact ⟨j, List.mem_cons_of_mem _ hj, hjf⟩
      · rw [if_neg hmf] at hp
        obtain ⟨j, hj, hjf⟩ := ih hp
        exact ⟨j, List.mem_cons_of_mem _ hj, hjf⟩

theorem scanOffsets_fst_of_no_error (data : List Nat) (pt : Option String) (offs : List Nat)
    (h : (scanOffsets data pt offs).2 = false) :
    (scanOffsets data pt offs).1 = offs.filterMap
      (fun i => (Packet.from_bytes (data.drop i)).bind
        (fun p => if matchesFilter pt p then some p else none)) := by
  induction offs with
  | nil => simp [scanOffsets]
  | cons i rest ih =>
    rw [scanOffsets_cons] at h ⊢
    rw [List.filterMap_cons]
    revert h
    cases hfb : Packet.from_bytes (data.drop i) with
    | none => intro h; simp at h
    | some p =>
      intro h
      dsimp only at h
      by_cases hmf : matchesFilter pt p
      · simp [hmf, ih h]
      · simp [hmf, ih h]

/-- C4 as stated is false: on a buffer holding only the 8 magic bytes the
scanner raises `struct.error` (the header decode at the match fails) instead
of silently skipping the malformed candidate. -/
theorem C4_counterexample : get_packets bufMagicOnly none = ([], true) := by decide

/-- C4 (amended): the scanner raises `struct.error` exactly when some magic
occurrence has fewer than 64 bytes remaining after it; when it does not
raise, it yields one packet per magic occurrence whose header decodes and
that passes the type filter — including candidates that fail `is_valid`, so
nothing is skipped silently. -/
theorem C4_scanner (data : List Nat) (pt : Option String) :
    ((get_packets data pt).2 = true ↔
      ∃ i ∈ finditer magic_expected data, data.length < i + 64)
    ∧ ((get_packets data pt).2 = false →
        (get_packets data pt).1 = (finditer magic_expected data).filterMap
          (fun i => (Packet.from_bytes (data.drop i)).bind
            (fun p => if matchesFilter pt p then some p else none))) := by
  constructor
  · rw [get_packets, scanOffsets_snd_true_iff]
    constructor
    · rintro ⟨i, hi, hn⟩
      rw [Packet.from_bytes_none_iff] at hn
      simp only [List.length_drop] at hn
      exact ⟨i, hi, by omega⟩
    · rintro ⟨i, hi, hlt⟩
      refine ⟨i, hi, ?_⟩
      rw [Packet.from_bytes_none_iff]
      simp only [List.length_drop]
      omega
  · exact scanOffsets_fst_of_no_error data pt (finditer magic_expected data)

/-! ### Consolidation lemmas and claims C3, C8 -/

theorem consolidateGroup_of_pairwise (l : List Packet)
    (h : ∀ q ∈ l, ∀ r ∈ l, q.header = r.header) :
    consolidateGroup l = some (l.take 1) := by
  match l with
  | [] => rfl
  | [p] => rfl
  | p :: p2 :: t =>
    simp only [consolidateGroup]
    rw [if_pos (by simp)]
    rw [if_pos]
    · rfl
    · rw [List.all_eq_true]
      intro q hq
      simp only [Packet.pyEq, decide_eq_true_eq]
      exact h q hq p (List.mem_cons_self _ _)

theorem consolidateGroup_none_of_mismatch (p : Packet) (ps : List Packet)
    (q : Packet) (hq : q ∈ p :: ps) (hne : q.header ≠ p.header) :
    consolidateGroup (p :: ps) = none := by
  have hps : ps ≠ [] := by
    intro he
    subst he
    rcases List.mem_cons.mp hq with h | h
    · exact hne (by rw [h])
    · simp at h
  simp only [consolidateGroup]
  rw [if_pos (by cases ps with | nil => exact absurd rfl hps | cons a t => simp)]
  rw [if_neg]
  intro hall
  rw [List.all_eq_true] at hall
  have := hall q hq
  simp only [Packet.pyEq, decide_eq_true_eq] at this
  exact hne this

theorem pair_eq_of_snd_false {α : Type} (x : α × Bool) (h : x.2 = false) :
    x = (x.1, false) := by
  cases x
  simp_all

/-- Unfolding of `_get_optimized_main` once both scans succeed and both
duplicate checks pass. -/
theorem _get_optimized_main_eq (md5func : List Nat → List Nat) (dc data : List Nat)
    (cl ml : List Packet)
    (hsc : (get_packets data (some "Creator")).2 = false)
    (hsm : (get_packets data (some "Main")).2 = false)
    (hcg : consolidateGroup (get_packets data (some "Creator")).1 = some cl)
    (hmg : consolidateGroup (get_packets data (some "Main")).1 = some ml) :
    _get_optimized_main md5func dc data = consolidatedOutput md5func dc cl ml := by
  unfold _get_optimized_main
  cases hcs : get_packets data (some "Creator") with
  | mk cs ce =>
    cases hms : get_packets data (some "Main") with
    | mk ms me =>
      rw [hcs] at hsc hcg
      rw [hms] at hsm hmg
      simp only at hsc hsm hcg hmg
      subst hsc
      subst hsm
      dsimp only
      rw [hcg, hmg]
      cases ml with
      | nil => rfl
      | cons m t => rfl

/-- Unfolding of `_get_optimized_main` when the Main duplicate check fails
(and the Creator one passes). -/
theorem _get_optimized_main_err_main (md5func : List Nat → List Nat) (dc data : List Nat)
    (cl : List Packet)
    (hsc : (get_packets data (some "Creator")).2 = false)
    (hsm : (get_packets data (some "Main")).2 = false)
    (hcg : consolidateGroup (get_packets data (some "Creator")).1 = some cl)
    (hmg : consolidateGroup (get_packets data (some "Main")).1 = none) :
    _get_optimized_main md5func dc data =
      Except.error (.inconsistentRecoverySet "Main") := by
  unfold _get_optimized_main
  cases hcs : get_packets data (some "Creator") with
  | mk cs ce =>
    cases hms : get_packets data (some "Main") with
    | mk ms me =>
      rw [hcs] at hsc hcg
      rw [hms] at hsm hmg
      simp only at hsc hsm hcg hmg
      subst hsc
      subst hsm
      dsimp only
      rw [hcg, hmg]
      rfl

/-- C3 as stated is false: this buffer holds two Main packets that differ in
one payload byte yet share a byte-identical header; because `Packet.__eq__`
compares headers only, consolidation collapses them and raises no error. -/
theorem C3_counterexample :
    ((get_packets bufPayloadMismatchMains (some "Main")).1.map (fun p => p.header) =
        [mainP1.header, mainP1.header])
    ∧ ((get_packets bufPayloadMismatchMains (some "Main")).1.map
        (fun p => p.data_after_header) = [[1, 1, 1, 1], [1, 1, 1, 2]])
    ∧ (_get_optimized_main md5dummy [] bufPayloadMismatchMains).toOption.isSome = true := by
  refine ⟨by decide, by decide, by decide⟩

/-- C3 (amended): provided the scans succeed and the Creator group is
consistent, consolidation collapses Main packets with byte-identical
*headers* to one and raises no error, and raises
`InconsistentRecoverySetError` exactly when two Main packets have different
headers — a payload-only difference is invisible to the header-based
packet equality, so it is collapsed silently rather than rejected. -/
theorem C3_duplicate_mains (md5func : List Nat → List Nat) (dc data : List Nat)
    (m : Packet) (ms' : List Packet)
    (hsc : (get_packets data (some "Creator")).2 = false)
    (hsm : (get_packets data (some "Main")).2 = false)
    (hcr : consolidateGroup (get_packets data (some "Creator")).1 ≠ none)
    (hms : (get_packets data (some "Main")).1 = m :: ms') :
    ((∀ q ∈ m :: ms', q.header = m.header) →
        consolidateGroup (m :: ms') = some [m]
        ∧ ∃ r, _get_optimized_main md5func dc data = Except.ok r)
    ∧ ((∃ q ∈ m :: ms', q.header ≠ m.header) →
        _get_optimized_main md5func dc data =
          Except.error (.inconsistentRecoverySet "Main")) := by
  obtain ⟨cl, hcl⟩ : ∃ cl, consolidateGroup (get_packets data (some "Creator")).1 = some cl := by
    cases hx : consolidateGroup (get_packets data (some "Creator")).1 with
    | none => exact absurd hx hcr
    | some cl => exact ⟨cl, rfl⟩
  constructor
  · intro hall
    have hpair : ∀ q ∈ m :: ms', ∀ r ∈ m :: ms', q.header = r.header := by
      intro q hq r hr
      rw [hall q hq, hall r hr]
    have hmg : consolidateGroup (get_packets data (some "Main")).1 = some [m] := by
      rw [hms]
      exact consolidateGroup_of_pairwise _ hpair
    refine ⟨by rw [← hms]; exact hmg ▸ (by rw [hms]), ?_⟩
    · rw [_get_optimized_main_eq md5func dc data cl [m] hsc hsm hcl hmg]
      unfold consolidatedOutput
      dsimp only
      split
      · exact ⟨_, rfl⟩
      · exact ⟨_, rfl⟩
  · rintro ⟨q, hq, hne⟩
    have hmg : consolidateGroup (get_packets data (some "Main")).1 = none := by
      rw [hms]
      exact consolidateGroup_none_of_mismatch m ms' q hq hne
    exact _get_optimized_main_err_main md5func dc data cl hsc hsm hcl hmg

theorem C3_duplicate_mains_witness :
    ((∀ q ∈ mainP1 :: [mainP1], q.header = mainP1.header) →
        consolidateGroup (mainP1 :: [mainP1]) = some [mainP1]
        ∧ ∃ r, _get_optimized_main md5dummy [] bufDupMains = Except.ok r)
    ∧ ((∃ q ∈ mainP1 :: [mainP1], q.header ≠ mainP1.header) →
        _get_optimized_main md5dummy [] bufDupMains =
          Except.error (.inconsistentRecoverySet "Main")) :=
  C3_duplicate_mains md5dummy [] bufDupMains mainP1 [mainP1] (by decide) (by decide)
    (by decide) (by decide)

/-- C8 as stated is false at two inputs that contain no Main packet: a buffer
of just the 8 magic bytes makes `optimize_for_tar` fail with `struct.error`,
and a buffer with two distinct Creator packets makes it fail with
`InconsistentRecoverySetError` — in both cases zero bytes are written, but
the error is not `MissingMainPacketError`. -/
theorem C8_counterexample :
    ((get_packets bufMagicOnly (some "Main")).1 = []
      ∧ optimize_for_tar md5dummy [] bufMagicOnly = ([], some .structError))
    ∧ ((get_packets bufCreatorsNoMain (some "Main")).1 = []
      ∧ optimize_for_tar md5dummy [] bufCreatorsNoMain =
          ([], some (.inconsistentRecoverySet "Creator"))) := by
  refine ⟨⟨by decide, by decide⟩, ⟨by decide, by decide⟩⟩

/-- C8 (amended): for every input buffer whose scan succeeds (every magic
occurrence has at least 64 bytes remaining), that contains no Main packet
and whose Creator packets are consistent, `optimize_for_tar` fails with
`MissingMainPacketError` and writes zero bytes to the destination. -/
theorem C8_missing_main (md5func : List Nat → List Nat) (dc data : List Nat)
    (hsc : (get_packets data (some "Creator")).2 = false)
    (hsm : (get_packets data (some "Main")).2 = false)
    (hcr : consolidateGroup (get_packets data (some "Creator")).1 ≠ none)
    (hnm : (get_packets data (some "Main")).1 = []) :
    optimize_for_tar md5func dc data = ([], some .missingMainPacket) := by
  obtain ⟨cl, hcl⟩ : ∃ cl, consolidateGroup (get_packets data (some "Creator")).1 = some cl := by
    cases hx : consolidateGroup (get_packets data (some "Creator")).1 with
    | none => exact absurd hx hcr
    | some cl => exact ⟨cl, rfl⟩
  have hmg : consolidateGroup (get_packets data (some "Main")).1 = some [] := by
    rw [hnm]
    rfl
  have hmain : _get_optimized_main md5func dc data = Except.error .missingMainPacket := by
    rw [_get_optimized_main_eq md5func dc data cl [] hsc hsm hcl hmg]
    rfl
  unfold optimize_for_tar
  rw [hmain]

theorem C8_missing_main_witness :
    optimize_for_tar md5dummy [] bufCreatorOnly = ([], some .missingMainPacket) :=
  C8_missing_main md5dummy [] bufCreatorOnly (by decide) (by decide) (by decide) (by decide)

/-! ### Bin-packing lemmas and claim C2 -/

theorem unused_add_mod (L : Nat) :
    (L + _get_unused_block_size L) % TAR_BLOCK_SIZE = 0 := by
  unfold _get_unused_block_size TAR_BLOCK_SIZE
  dsimp only
  split <;> omega

theorem fillBin_cons (rem : Nat) (p : Packet) (ps : List Packet) :
    fillBin rem (p :: ps) =
      if p.len ≤ rem then
        (p :: (fillBin (rem - p.len) ps).1, (fillBin (rem - p.len) ps).2.1,
          (fillBin (rem - p.len) ps).2.2)
      else
        ((fillBin rem ps).1, (fillBin rem ps).2.1, p :: (fillBin rem ps).2.2) := rfl

theorem fillBin_perm (rem : Nat) (l : List Packet) :
    List.Perm ((fillBin rem l).1 ++ (fillBin rem l).2.2) l := by
  induction l generalizing rem with
  | nil => simp [fillBin]
  | cons p ps ih =>
    rw [fillBin_cons]
    by_cases h : p.len ≤ rem
    · rw [if_pos h]
      exact List.Perm.cons p (ih (rem - p.len))
    · rw [if_neg h]
      exact List.perm_middle.trans (List.Perm.cons p (ih rem))

theorem fillBin_rem_sum (rem : Nat) (l : List Packet) :
    ((fillBin rem l).1.map Packet.len).sum + (fillBin rem l).2.1 = rem := by
  induction l generalizing rem with
  | nil => simp [fillBin]
  | cons p ps ih =>
    rw [fillBin_cons]
    by_cases h : p.len ≤ rem
    · rw [if_pos h]
      have := ih (rem - p.len)
      simp only [List.map_cons, List.sum_cons]
      omega
    · rw [if_neg h]
      exact ih rem

theorem fillBin_kept_length (rem : Nat) (l : List Packet) :
    (fillBin rem l).2.2.length ≤ l.length := by
  induction l generalizing rem with
  | nil => simp [fillBin]
  | cons p ps ih =>
    rw [fillBin_cons]
    by_cases h : p.len ≤ rem
    · rw [if_pos h]
      exact Nat.le_succ_of_le (ih (rem - p.len))
    · rw [if_neg h]
      simpa using ih rem

theorem fillBin_chosen_subset (rem : Nat) (l : List Packet) (q : Packet)
    (hq : q ∈ (fillBin rem l).1) : q ∈ l :=
  (fillBin_perm rem l).subset (List.mem_append_left _ hq)

theorem fillBin_kept_subset (rem : Nat) (l : List Packet) (q : Packet)
    (hq : q ∈ (fillBin rem l).2.2) : q ∈ l :=
  (fillBin_perm rem l).subset (List.mem_append_right _ hq)

theorem packBinsAux_cons (fuel : Nat) (p : Packet) (ps : List Packet) :
    packBinsAux (fuel + 1) (p :: ps) =
      if _get_unused_block_size p.len ≤ PACKET_HEADER_SIZE then
        { head := p, chosen := [], pad := _get_unused_block_size p.len } :: packBinsAux fuel ps
      else
        { head := p, chosen := (fillBin (_get_unused_block_size p.len) ps).1,
          pad := (fillBin (_get_unused_block_size p.len) ps).2.1 } ::
          packBinsAux fuel (fillBin (_get_unused_block_size p.len) ps).2.2 := rfl

theorem packBinsAux_perm (fuel : Nat) (l : List Packet) (hf : l.length ≤ fuel) :
    List.Perm ((packBinsAux fuel l).flatMap (fun b => b.head :: b.chosen)) l := by
  induction fuel generalizing l with
  | zero =>
    have : l = [] := List.length_eq_zero.mp (Nat.le_zero.mp hf)
    subst this
    simp [packBinsAux]
  | succ n ih =>
    cases l with
    | nil => simp [packBinsAux]
    | cons p ps =>
      rw [packBinsAux_cons]
      by_cases h : _get_unused_block_size p.len ≤ PACKET_HEADER_SIZE
      · rw [if_pos h]
        rw [List.flatMap_cons]
        exact List.Perm.cons p (ih ps (by simpa using hf))
      · rw [if_neg h]
        rw [List.flatMap_cons]
        have hkl : (fillBin (_get_unused_block_size p.len) ps).2.2.length ≤ n := by
          have := fillBin_kept_length (_get_unused_block_size p.len) ps
          simp only [List.length_cons] at hf
          omega
        have hrec := ih _ hkl
        have happ : List.Perm
            ((fillBin (_get_unused_block_size p.len) ps).1 ++
              (packBinsAux n (fillBin (_get_unused_block_size p.len) ps).2.2).flatMap
                (fun b => b.head :: b.chosen))
            ((fillBin (_get_unused_block_size p.len) ps).1 ++
              (fillBin (_get_unused_block_size p.len) ps).2.2) :=
          List.Perm.append_left _ hrec
      -- p :: chosen ++ rest ~ p :: ps
        exact List.Perm.cons p (happ.trans (fillBin_perm _ ps))

theorem chosen_bytes_length (chosen : List Packet)
    (hc : ∀ q ∈ chosen, q.header.length = PACKET_HEADER_SIZE + q.data_after_header.length) :
    ((chosen.map Packet.as_bytes).flatten).length = (chosen.map Packet.len).sum := by
  induction chosen with
  | nil => rfl
  | cons q qs ih =>
    simp only [List.map_cons, List.flatten_cons, List.length_append, List.sum_cons]
    rw [ih (fun r hr => hc r (List.mem_cons_of_mem _ hr))]
    have hq := hc q (List.mem_cons_self _ _)
    rw [Packet.as_bytes_len]
    simp only [Packet.len, PACKET_HEADER_SIZE] at *
    omega

theorem renderBin_length_head (p : Packet) (chosen : List Packet) (pad : Nat)
    (hp : p.header.length = PACKET_HEADER_SIZE + p.data_after_header.length)
    (hc : ∀ q ∈ chosen, q.header.length = PACKET_HEADER_SIZE + q.data_after_header.length) :
    (renderBin ⟨p, chosen, pad⟩).length = p.len + ((chosen.map Packet.len).sum + pad) := by
  unfold renderBin
  simp only [List.length_append, List.length_replicate]
  rw [chosen_bytes_length chosen hc, Packet.as_bytes_len]
  simp only [Packet.len, PACKET_HEADER_SIZE] at *
  omega

theorem packBinsAux_length_mod (fuel : Nat) (l : List Packet) (hf : l.length ≤ fuel)
    (hcomp : ∀ p ∈ l, p.header.length = PACKET_HEADER_SIZE + p.data_after_header.length) :
    (((packBinsAux fuel l).map renderBin).flatten).length % TAR_BLOCK_SIZE = 0 := by
  induction fuel generalizing l with
  | zero =>
    have : l = [] := List.length_eq_zero.mp (Nat.le_zero.mp hf)
    subst this
    rfl
  | succ n ih =>
    cases l with
    | nil => rfl
    | cons p ps =>
      rw [packBinsAux_cons]
      have hp := hcomp p (List.mem_cons_self _ _)
      by_cases h : _get_unused_block_size p.len ≤ PACKET_HEADER_SIZE
      · rw [if_pos h]
        simp only [List.map_cons, List.flatten_cons, List.length_append]
        have h1 : (renderBin ⟨p, [], _get_unused_block_size p.len⟩).length =
            p.len + ((([] : List Packet).map Packet.len).sum + _get_unused_block_size p.len) :=
          renderBin_length_head p [] _ hp (by simp)
        have h2 := ih ps (by simpa using hf) (fun q hq => hcomp q (List.mem_cons_of_mem _ hq))
        have h3 := unused_add_mod p.len
        simp only [List.map_nil, List.sum_nil, Nat.zero_add] at h1
        rw [h1]
        simp only [Packet.len, PACKET_HEADER_SIZE, TAR_BLOCK_SIZE] at *
        omega
      · rw [if_neg h]
        simp only [List.map_cons, List.flatten_cons, List.length_append]
        have hcsub : ∀ q ∈ (fillBin (_get_unused_block_size p.len) ps).1,
            q.header.length = PACKET_HEADER_SIZE + q.data_after_header.length :=
          fun q hq => hcomp q (List.mem_cons_of_mem _ (fillBin_chosen_subset _ _ q hq))
        have h1 := renderBin_length_head p (fillBin (_get_unused_block_size p.len) ps).1
          (fillBin (_get_unused_block_size p.len) ps).2.1 hp hcsub
        have hsum := fillBin_rem_sum (_get_unused_block_size p.len) ps
        have hkl : (fillBin (_get_unused_block_size p.len) ps).2.2.length ≤ n := by
          have := fillBin_kept_length (_get_unused_block_size p.len) ps
          simp only [List.length_cons] at hf
          omega
        have h2 := ih _ hkl (fun q hq =>
          hcomp q (List.mem_cons_of_mem _ (fillBin_kept_subset _ _ q hq)))
        have h3 := unused_add_mod p.len
        rw [h1]
        simp only [Packet.len, PACKET_HEADER_SIZE, TAR_BLOCK_SIZE] at *
        omega

theorem packBinsAux_sum_le (fuel : Nat) (l : List Packet) (hf : l.length ≤ fuel)
    (hcomp : ∀ p ∈ l, p.header.length = PACKET_HEADER_SIZE + p.data_after_header.length) :
    (l.map Packet.len).sum ≤ (((packBinsAux fuel l).map renderBin).flatten).length := by
  induction fuel generalizing l with
  | zero =>
    have : l = [] := List.length_eq_zero.mp (Nat.le_zero.mp hf)
    subst this
    simp
  | succ n ih =>
    cases l with
    | nil => simp
    | cons p ps =>
      rw [packBinsAux_cons]
      have hp := hcomp p (List.mem_cons_self _ _)
      by_cases h : _get_unused_block_size p.len ≤ PACKET_HEADER_SIZE
      · rw [if_pos h]
        simp only [List.map_cons, List.flatten_cons, List.length_append, List.sum_cons]
        have h1 : (renderBin ⟨p, [], _get_unused_block_size p.len⟩).length =
            p.len + ((([] : List Packet).map Packet.len).sum + _get_unused_block_size p.len) :=
          renderBin_length_head p [] _ hp (by simp)
        have h2 := ih ps (by simpa using hf) (fun q hq => hcomp q (List.mem_cons_of_mem _ hq))
        simp only [List.map_nil, List.sum_nil, Nat.zero_add] at h1
        rw [h1]
        simp only [Packet.len, PACKET_HEADER_SIZE, TAR_BLOCK_SIZE] at *
        omega
      · rw [if_neg h]
        simp only [List.map_cons, List.flatten_cons, List.length_append, List.sum_cons]
        have hcsub : ∀ q ∈ (fillBin (_get_unused_block_size p.len) ps).1,
            q.header.length = PACKET_HEADER_SIZE + q.data_after_header.length :=
          fun q hq => hcomp q (List.mem_cons_of_mem _ (fillBin_chosen_subset _ _ q hq))
        have h1 := renderBin_length_head p (fillBin (_get_unused_block_size p.len) ps).1
          (fillBin (_get_unused_block_size p.len) ps).2.1 hp hcsub
        have hkl : (fillBin (_get_unused_block_size p.len) ps).2.2.length ≤ n := by
          have := fillBin_kept_length (_get_unused_block_size p.len) ps
          simp only [List.length_cons] at hf
          omega
        have h2 := ih _ hkl (fun q hq =>
          hcomp q (List.mem_cons_of_mem _ (fillBin_kept_subset _ _ q hq)))
        have hsplit : ((fillBin (_get_unused_block_size p.len) ps).1.map Packet.len).sum +
            ((fillBin (_get_unused_block_size p.len) ps).2.2.map Packet.len).sum =
            (ps.map Packet.len).sum := by
          have hperm := (fillBin_perm (_get_unused_block_size p.len) ps).map Packet.len
          have := hperm.sum_eq
          simpa using this
        rw [h1]
        simp only [Packet.len, PACKET_HEADER_SIZE, TAR_BLOCK_SIZE] at *
        omega

theorem insertByLenDesc_perm (p : Packet) (l : List Packet) :
    List.Perm (insertByLenDesc p l) (p :: l) := by
  induction l with
  | nil => exact List.Perm.refl _
  | cons q qs ih =>
    unfold insertByLenDesc
    by_cases h : p.len ≤ q.len
    · rw [if_pos h]
      exact (List.Perm.cons q ih).trans (List.Perm.swap p q qs)
    · rw [if_neg h]

theorem foldl_insert_perm (l acc : List Packet) :
    List.Perm (l.foldl (fun acc p => insertByLenDesc p acc) acc) (acc ++ l) := by
  induction l generalizing acc with
  | nil => simp
  | cons p t ih =>
    rw [List.foldl_cons]
    have h1 := ih (insertByLenDesc p acc)
    have h2 : List.Perm (insertByLenDesc p acc ++ t) ((p :: acc) ++ t) :=
      (insertByLenDesc_perm p acc).append_right t
    refine (h1.trans (h2.trans ?_))
    exact List.perm_middle.symm

theorem sortByLenDesc_perm (l : List Packet) : List.Perm (sortByLenDesc l) l := by
  have := foldl_insert_perm l []
  simpa [sortByLenDesc] using this

theorem packFilePackets_length_mod (l : List Packet)
    (hcomp : ∀ p ∈ l, p.header.length = PACKET_HEADER_SIZE + p.data_after_header.length) :
    (packFilePackets l).length % TAR_BLOCK_SIZE = 0 := by
  unfold packFilePackets packBins
  exact packBinsAux_length_mod _ _ (Nat.le_refl _)
    (fun p hp => hcomp p ((sortByLenDesc_perm l).subset hp))

theorem packFilePackets_sum_le (l : List Packet)
    (hcomp : ∀ p ∈ l, p.header.length = PACKET_HEADER_SIZE + p.data_after_header.length) :
    (l.map Packet.len).sum ≤ (packFilePackets l).length := by
  have h1 := packBinsAux_sum_le (sortByLenDesc l).length (sortByLenDesc l) (Nat.le_refl _)
    (fun p hp => hcomp p ((sortByLenDesc_perm l).subset hp))
  have h2 : ((sortByLenDesc l).map Packet.len).sum = (l.map Packet.len).sum :=
    ((sortByLenDesc_perm l).map Packet.len).sum_eq
  unfold packFilePackets packBins
  omega

theorem packBins_sort_perm (l : List Packet) :
    List.Perm ((packBins (sortByLenDesc l)).flatMap (fun b => b.head :: b.chosen)) l :=
  (packBinsAux_perm _ _ (Nat.le_refl _)).trans (sortByLenDesc_perm l)

/-- C2 as stated is false: a file packet whose declared length (512) exceeds
its serialized size (64 bytes: header only, empty payload) makes the packed
output 64 bytes long — not a multiple of 512 and smaller than the declared
input size. -/
theorem C2_counterexample :
    (packFilePackets [fdBad]).length % TAR_BLOCK_SIZE ≠ 0
    ∧ (packFilePackets [fdBad]).length < ([fdBad].map Packet.len).sum := by
  refine ⟨by decide, by decide⟩

/-- C2 (amended): for every multiset of file packets each satisfying the
length invariant (declared header length = 64 + payload length), the packed
byte stream's length is a multiple of 512, the sum of the declared packet
sizes is at most the output length, and the packets emitted across the bins
are exactly the input packets (a permutation — each appears exactly once,
its serialized bytes written at its bin position). -/
theorem C2_pack_invariants (l : List Packet)
    (hcomp : ∀ p ∈ l, p.header.length = PACKET_HEADER_SIZE + p.data_after_header.length) :
    (packFilePackets l).length % TAR_BLOCK_SIZE = 0
    ∧ (l.map Packet.len).sum ≤ (packFilePackets l).length
    ∧ List.Perm ((packBins (sortByLenDesc l)).flatMap (fun b => b.head :: b.chosen)) l :=
  ⟨packFilePackets_length_mod l hcomp, packFilePackets_sum_le l hcomp, packBins_sort_perm l⟩

theorem C2_pack_invariants_witness :
    (packFilePackets [fdGood]).length % TAR_BLOCK_SIZE = 0
    ∧ ([fdGood].map Packet.len).sum ≤ (packFilePackets [fdGood]).length
    ∧ List.Perm ((packBins (sortByLenDesc [fdGood])).flatMap (fun b => b.head :: b.chosen))
        [fdGood] :=
  C2_pack_invariants [fdGood] (by decide)

/-! ### Stream assembly and claim C1 -/

theorem isSome_of_completeB (o : Option Packet)
    (h : (o.map Packet.completeB).getD false = true) : o.isSome = true := by
  cases o <;> simp_all

theorem get_packets_snd_false_of (data : List Nat) (pt : Option String)
    (h : ∀ i ∈ finditer magic_expected data,
      (Packet.from_bytes (data.drop i)).isSome = true) :
    (get_packets data pt).2 = false := by
  cases hb : (get_packets data pt).2
  · rfl
  · exfalso
    rw [get_packets] at hb
    obtain ⟨i, hi, hn⟩ := (scanOffsets_snd_true_iff data pt _).mp hb
    have := h i hi
    rw [hn] at this
    simp at this

theorem get_packets_complete (data : List Nat) (pt : Option String)
    (hcomp : ∀ i ∈ finditer magic_expected data,
      ((Packet.from_bytes (data.drop i)).map Packet.completeB).getD false = true)
    (p : Packet) (hp : p ∈ (get_packets data pt).1) :
    p.header.length = PACKET_HEADER_SIZE + p.data_after_header.length := by
  obtain ⟨i, hi, hf⟩ := scanOffsets_mem data pt _ p hp
  have := hcomp i hi
  rw [hf] at this
  simpa [Packet.completeB] using this

theorem pyDedupAux_subset (fuel : Nat) (l : List Packet) (p : Packet)
    (hp : p ∈ pyDedupAux fuel l) : p ∈ l := by
  induction fuel generalizing l with
  | zero => simp [pyDedupAux] at hp
  | succ n ih =>
    cases l with
    | nil => simp [pyDedupAux] at hp
    | cons q qs =>
      rcases List.mem_cons.mp hp with h | h
      · exact h ▸ List.mem_cons_self _ _
      · exact List.mem_cons_of_mem _ (List.mem_of_mem_filter (ih _ h))

theorem pyDedup_subset (l : List Packet) (p : Packet) (hp : p ∈ pyDedup l) : p ∈ l :=
  pyDedupAux_subset _ _ _ hp

theorem consolidatedOutput_ok_mod (md5func : List Nat → List Nat) (dc : List Nat)
    (cl : List Packet) (m : Packet) (rest : List Packet)
    (hm : m.header.length = PACKET_HEADER_SIZE + m.data_after_header.length)
    (hcl : ∀ c ∈ cl, c.header.length = PACKET_HEADER_SIZE + c.data_after_header.length) :
    ∃ md creator_out, consolidatedOutput md5func dc cl (m :: rest) =
        Except.ok (md, creator_out)
      ∧ md.length % TAR_BLOCK_SIZE = 0 := by
  have hmb : m.as_bytes.length = m.len := by
    rw [Packet.as_bytes_len]
    simp only [Packet.len, PACKET_HEADER_SIZE] at *
    omega
  have hmod := unused_add_mod m.len
  cases cl with
  | nil =>
    unfold consolidatedOutput
    dsimp only
    have hcb : (CreatorPacket.mkNew md5func dc m.header.set_id).as_bytes.length =
        (CreatorPacket.mkNew md5func dc m.header.set_id).len := by
      rw [Packet.as_bytes_len]
      rfl
    by_cases hfit : (CreatorPacket.mkNew md5func dc m.header.set_id).len ≤
        _get_unused_block_size m.len
    · rw [if_pos hfit]
      refine ⟨_, _, rfl, ?_⟩
      simp only [List.length_append, List.length_replicate]
      simp only [TAR_BLOCK_SIZE] at *
      omega
    · rw [if_neg hfit]
      refine ⟨_, _, rfl, ?_⟩
      simp only [List.length_append, List.length_replicate]
      simp only [TAR_BLOCK_SIZE] at *
      omega
  | cons c ct =>
    unfold consolidatedOutput
    dsimp only
    have hcb : c.as_bytes.length = c.len := by
      have := hcl c (List.mem_cons_self _ _)
      rw [Packet.as_bytes_len]
      simp only [Packet.len, PACKET_HEADER_SIZE] at *
      omega
    by_cases hfit : c.len ≤ _get_unused_block_size m.len
    · rw [if_pos hfit]
      refine ⟨_, _, rfl, ?_⟩
      simp only [List.length_append, List.length_replicate]
      simp only [TAR_BLOCK_SIZE] at *
      omega
    · rw [if_neg hfit]
      refine ⟨_, _, rfl, ?_⟩
      simp only [List.length_append, List.length_replicate]
      simp only [TAR_BLOCK_SIZE] at *
      omega

theorem _get_optimized_file_data_eq (data : List Nat)
    (h1 : (get_packets data (some "FileDescription")).2 = false)
    (h2 : (get_packets data (some "FileVerification")).2 = false) :
    _get_optimized_file_data data = Except.ok (packFilePackets (pyDedup
      ((get_packets data (some "FileDescription")).1 ++
        (get_packets data (some "FileVerification")).1))) := by
  unfold _get_optimized_file_data
  cases hfd : get_packets data (some "FileDescription") with
  | mk fd e1 =>
    cases hfv : get_packets data (some "FileVerification") with
    | mk fv e2 =>
      rw [hfd] at h1
      rw [hfv] at h2
      simp only at h1 h2
      subst h1
      subst h2
      rfl

theorem recovery_blocks_mod (l : List Packet)
    (hcomp : ∀ p ∈ l, p.header.length = PACKET_HEADER_SIZE + p.data_after_header.length) :
    ((l.map (fun p =>
      p.as_bytes ++ List.replicate (_get_unused_block_size p.len) 0)).flatten).length %
      TAR_BLOCK_SIZE = 0 := by
  induction l with
  | nil => rfl
  | cons p ps ih =>
    simp only [List.map_cons, List.flatten_cons, List.length_append, List.length_replicate]
    have hp := hcomp p (List.mem_cons_self _ _)
    have hu := unused_add_mod p.len
    have hih := ih (fun q hq => hcomp q (List.mem_cons_of_mem _ hq))
    rw [Packet.as_bytes_len]
    simp only [Packet.len, PACKET_HEADER_SIZE, TAR_BLOCK_SIZE] at *
    omega

/-- C1 as stated is false at three inputs, each of which contains a Main
packet: a buffer whose Main packet is truncated (declared length 128, only
the 64 header bytes present) makes `optimize_for_tar` abort on its
whole-block assertion after writing 448 bytes — not the claimed sequence and
not a multiple of 512; a buffer with two header-distinct Main packets and a
buffer with two header-distinct Creator packets both abort with
`InconsistentRecoverySetError` before writing anything. -/
theorem C1_counterexample :
    ((get_packets bufTruncMain (some "Main")).1 ≠ []
      ∧ (optimize_for_tar md5dummy [] bufTruncMain).2 = some .assertionError
      ∧ (optimize_for_tar md5dummy [] bufTruncMain).1.length % TAR_BLOCK_SIZE ≠ 0)
    ∧ ((get_packets bufTwoDistinctMains (some "Main")).1 ≠ []
      ∧ optimize_for_tar md5dummy [] bufTwoDistinctMains =
          ([], some (.inconsistentRecoverySet "Main")))
    ∧ ((get_packets bufTwoDistinctCreators (some "Main")).1 ≠ []
      ∧ optimize_for_tar md5dummy [] bufTwoDistinctCreators =
          ([], some (.inconsistentRecoverySet "Creator"))) := by
  refine ⟨⟨by decide, by decide, by decide⟩, ⟨by decide, by decide⟩, ⟨by decide, by decide⟩⟩

/-- C1 (amended): for every input buffer in which every magic occurrence
starts a complete packet (64 header bytes present and declared length equal
to serialized size), in which at least one Main packet occurs, all Main
packets have identical headers and all Creator packets have identical
headers, `optimize_for_tar` succeeds and writes exactly: the consolidated
Main+Creator block, the packed file-packet blocks, each RecoveryBlock packet
individually zero-padded to its own 512-byte boundary, a second copy of the
packed file-packet blocks, and a second copy of the consolidated
Main+Creator block; the total number of bytes written is a multiple of
512. -/
theorem C1_optimize_stream (md5func : List Nat → List Nat) (dc data : List Nat)
    (hcomp : ∀ i ∈ finditer magic_expected data,
      ((Packet.from_bytes (data.drop i)).map Packet.completeB).getD false = true)
    (m : Packet) (ms' : List Packet)
    (hms : (get_packets data (some "Main")).1 = m :: ms')
    (hmeq : ∀ q ∈ (get_packets data (some "Main")).1, q.header = m.header)
    (hceq : ∀ q ∈ (get_packets data (some "Creator")).1,
        ∀ r ∈ (get_packets data (some "Creator")).1, q.header = r.header) :
    ∃ main_data creator_out file_data,
      _get_optimized_main md5func dc data = Except.ok (main_data, creator_out)
      ∧ _get_optimized_file_data data = Except.ok file_data
      ∧ optimize_for_tar md5func dc data =
          (main_data ++ file_data ++
            ((get_packets data (some "RecoveryBlock")).1.map (fun p =>
              p.as_bytes ++ List.replicate (_get_unused_block_size p.len) 0)).flatten ++
            file_data ++ main_data, none)
      ∧ (optimize_for_tar md5func dc data).1.length % TAR_BLOCK_SIZE = 0 := by
  have hsome : ∀ i ∈ finditer magic_expected data,
      (Packet.from_bytes (data.drop i)).isSome = true := fun i hi =>
    isSome_of_completeB _ (hcomp i hi)
  have hsf : ∀ pt, (get_packets data pt).2 = false := fun pt =>
    get_packets_snd_false_of data pt hsome
  have hc : ∀ pt p, p ∈ (get_packets data pt).1 →
      p.header.length = PACKET_HEADER_SIZE + p.data_after_header.length := fun pt p hp =>
    get_packets_complete data pt hcomp p hp
  have hcg : consolidateGroup (get_packets data (some "Creator")).1 =
      some ((get_packets data (some "Creator")).1.take 1) :=
    consolidateGroup_of_pairwise _ hceq
  have hmpair : ∀ q ∈ m :: ms', ∀ r ∈ m :: ms', q.header = r.header := by
    intro q hq r hr
    rw [hmeq q (by rw [hms]; exact hq), hmeq r (by rw [hms]; exact hr)]
  have hmg : consolidateGroup (get_packets data (some "Main")).1 = some [m] := by
    rw [hms]
    exact consolidateGroup_of_pairwise _ hmpair
  have hmcomp := hc (some "Main") m (by rw [hms]; exact List.mem_cons_self m ms')
  have hclcomp : ∀ c ∈ (get_packets data (some "Creator")).1.take 1,
      c.header.length = PACKET_HEADER_SIZE + c.data_after_header.length := fun c hcmem =>
    hc (some "Creator") c (List.take_subset _ _ hcmem)
  obtain ⟨md, creator_out, hok, hmdmod⟩ :=
    consolidatedOutput_ok_mod md5func dc _ m [] hmcomp hclcomp
  have hmain : _get_optimized_main md5func dc data = Except.ok (md, creator_out) := by
    rw [_get_optimized_main_eq md5func dc data _ [m] (hsf _) (hsf _) hcg hmg]
    exact hok
  have hfdeq := _get_optimized_file_data_eq data (hsf _) (hsf _)
  have hfdcomp : ∀ p ∈ pyDedup ((get_packets data (some "FileDescription")).1 ++
      (get_packets data (some "FileVerification")).1),
      p.header.length = PACKET_HEADER_SIZE + p.data_after_header.length := by
    intro p hp
    rcases List.mem_append.mp (pyDedup_subset _ _ hp) with h | h
    · exact hc _ _ h
    · exact hc _ _ h
  have hfdmod : (packFilePackets (pyDedup ((get_packets data (some "FileDescription")).1 ++
      (get_packets data (some "FileVerification")).1))).length % TAR_BLOCK_SIZE = 0 :=
    packFilePackets_length_mod _ hfdcomp
  have hrecmod := recovery_blocks_mod (get_packets data (some "RecoveryBlock")).1
    (fun p hp => hc _ p hp)
  have hfull : optimize_for_tar md5func dc data =
      (md ++ packFilePackets (pyDedup ((get_packets data (some "FileDescription")).1 ++
          (get_packets data (some "FileVerification")).1)) ++
        ((get_packets data (some "RecoveryBlock")).1.map (fun p =>
          p.as_bytes ++ List.replicate (_get_unused_block_size p.len) 0)).flatten ++
        packFilePackets (pyDedup ((get_packets data (some "FileDescription")).1 ++
          (get_packets data (some "FileVerification")).1)) ++ md, none) := by
    unfold optimize_for_tar
    rw [hmain, hfdeq]
    dsimp only
    rw [if_neg (fun hne => hne (by
      simp only [TAR_BLOCK_SIZE] at *
      omega))]
    cases hrs : get_packets data (some "RecoveryBlock") with
    | mk recs re =>
      have hre : re = false := by
        have := hsf (some "RecoveryBlock")
        rw [hrs] at this
        simpa using this
      subst hre
      rfl
  refine ⟨md, creator_out, _, hmain, hfdeq, hfull, ?_⟩
  rw [hfull]
  simp only [List.length_append]
  simp only [TAR_BLOCK_SIZE] at *
  omega

theorem C1_optimize_stream_witness :
    ∃ main_data creator_out file_data,
      _get_optimized_main md5dummy [] bufGood = Except.ok (main_data, creator_out)
      ∧ _get_optimized_file_data bufGood = Except.ok file_data
      ∧ optimize_for_tar md5dummy [] bufGood =
          (main_data ++ file_data ++
            ((get_packets bufGood (some "RecoveryBlock")).1.map (fun p =>
              p.as_bytes ++ List.replicate (_get_unused_block_size p.len) 0)).flatten ++
            file_data ++ main_data, none)
      ∧ (optimize_for_tar md5dummy [] bufGood).1.length % TAR_BLOCK_SIZE = 0 :=
  C1_optimize_stream md5dummy [] bufGood (by decide) mainP1 [] (by decide) (by decide)
    (by decide)

end QrPdf
